import Mathlib

/-!
# Verification of the Git-to-RAG chunk cache and upload pipeline

Shallow embedding of the repository's two core modules:

* `src/chunker.py` — `Chunker.process_directory` / `Chunker.process_file`:
  an incremental, content-hash-keyed chunk cache over a file tree;
* `src/pinecone_uploader.py` — `PineconeUploader.upload_documents`,
  `_create_vector`, `get_embedding`, `chunker` (the batching helper):
  embedding with per-item retry, content-addressed vector ids, batching
  and batch upsert.

External collaborators (MD5, the text splitters, the tokenizer, the
embedding service, the vector index upsert) are parameters of the model:
the code calls them as opaque functions, so the embedding quantifies over
them.  The filesystem walk is modelled as the list of eligible files it
yields, in walk order; the JSON blob store and the metadata index are
modelled as association lists keyed by path / cache key.
-/

/-- `utils.Document`: a chunk record with `content` and a metadata dict.
Metadata is modelled as an association list of string keys/values
(`token_count` rendered as a string, as JSON round-tripping preserves it). -/
structure Document where
  content : String
  metadata : List (String × String)
deriving DecidableEq, Repr

/-- Association-list lookup, modelling Python `d[k]` / `k in d` on the
JSON-backed dicts used for the blob store and the metadata index. -/
def getKey {α : Type} : List (String × α) → String → Option α
  | [], _ => none
  | (k', v) :: rest, k => if k' = k then some v else getKey rest k

/-- Association-list update, modelling Python `d[k] = v` (replace if the
key is present, append otherwise). -/
def setKey {α : Type} : List (String × α) → String → α → List (String × α)
  | [], k, v => [(k, v)]
  | (k', v') :: rest, k, v =>
    if k' = k then (k, v) :: rest else (k', v') :: setKey rest k v

/-!
## `src/pinecone_uploader.py`

The embedding service returns `List[float]`; floating-point values never
influence control flow here, so the embedding-vector payload is an
abstract type parameter `Emb`.  The embedding collaborator is a function
`Nat → Except String Emb` from the attempt number (so a collaborator may
fail transiently and succeed on retry); the upsert collaborator maps a
batch to its eventual result, covering both the submit-time and the
await-time (`result.result()`) failure, which the source handles
identically (catch and log).
-/

/-- A Pinecone vector dict as built by `_create_vector`:
`{'id': ..., 'values': ..., 'metadata': {'content': ..., **doc.metadata}}`. -/
structure PVector (Emb : Type) where
  id : String
  values : Emb
  metadata : List (String × String)
deriving DecidableEq, Repr

/-- `PineconeUploader.get_embedding`'s retry loop
(`for attempt in range(max_retries)`), with the remaining iteration count
as fuel (`remaining = max_retries - attempt`).  Returns the result together
with the number of attempts actually made.  A failing attempt with
`attempt == max_retries - 1` (i.e. `remaining = 1`) re-raises; otherwise
the loop sleeps one second (time not modelled) and retries. -/
def getEmbeddingLoop {Emb : Type} (embed : Nat → Except String Emb) (attempt : Nat) :
    Nat → Except String Emb × Nat
  | 0 => (Except.error "range exhausted", 0)
  | n + 1 =>
    match embed attempt with
    | Except.ok e => (Except.ok e, 1)
    | Except.error er =>
      if n = 0 then (Except.error er, 1)
      else
        let p := getEmbeddingLoop embed (attempt + 1) n
        (p.1, p.2 + 1)

/-- `max_retries = 3` in `get_embedding`. -/
def max_retries : Nat := 3

/-- `PineconeUploader.get_embedding`: try the embedding call up to
`max_retries` times; raise the last error if every attempt fails. -/
def get_embedding {Emb : Type} (embed : Nat → Except String Emb) :
    Except String Emb × Nat :=
  getEmbeddingLoop embed 0 max_retries

/-- `PineconeUploader._create_vector`: embed the document's content,
build the vector dict with `id = md5(content)`, and on any exception
(in particular `get_embedding` exhausting its retries) catch, log and
return `None`. -/
def create_vector {Emb : Type} (md5 : String → String)
    (embed : Document → Nat → Except String Emb) (doc : Document) :
    Option (PVector Emb) :=
  match (get_embedding (embed doc)).1 with
  | Except.ok e =>
    some { id := md5 doc.content, values := e,
           metadata := ("content", doc.content) :: doc.metadata }
  | Except.error _ => none

/-- `PineconeUploader.chunker`:
`(seq[pos:pos + size] for pos in range(0, len(seq), size))`.
For `size = 0` the source's `range` raises `ValueError`; the model returns
`[]` there (every claim supposes a positive batch size). -/
def chunker {α : Type} (seq : List α) (size : Nat) : List (List α) :=
  if _h1 : seq.isEmpty then []
  else if _h2 : size = 0 then []
  else seq.take size :: chunker (seq.drop size) size
termination_by seq.length
decreasing_by
  have hlen : 0 < seq.length := by
    cases seq with
    | nil => simp at _h1
    | cons a l => simp
  simpa [List.length_drop] using Nat.sub_lt hlen (Nat.pos_of_ne_zero _h2)

/-- `batch_size = 200` in `upload_documents`. -/
def batch_size : Nat := 200

/-- Whether an `Except` result is an error. -/
def isErr {ε α : Type} : Except ε α → Bool
  | Except.error _ => true
  | Except.ok _ => false

/-- Observable outcome of `upload_documents`: the vector list built by the
embedding phase, the batches submitted, the number of `index.upsert` calls
made, and the number of batch errors logged (submit-time or await-time). -/
structure UploadOutcome (Emb : Type) where
  vectors : List (PVector Emb)
  batches : List (List (PVector Emb))
  upsertCalls : Nat
  batchErrors : Nat
deriving DecidableEq, Repr

/-- `PineconeUploader.upload_documents`.

Phase 1 submits `_create_vector` for every document to a thread pool and
collects the successful (`if vector:`) results; the completion order of
`as_completed` is nondeterministic, so the model fixes submission order —
no claim here depends on the order of `vectors`.

Phase 2 iterates `self.chunker(vectors, batch_size)` and calls
`self.index.upsert` exactly once per batch; the `try/except` around the
upsert (and around `result.result()` in the drain loop) catches every
upsert failure and logs it, so a failed batch is dropped and the loop
continues; the function then returns normally, so the whole call yields
`Except.ok` with one upsert call per batch and one logged error per
failing batch. -/
def upload_documents {Emb : Type} (md5 : String → String)
    (embed : Document → Nat → Except String Emb)
    (upsert : List (PVector Emb) → Except String Unit)
    (documents : List Document) : Except String (UploadOutcome Emb) :=
  let vectors := documents.filterMap (create_vector md5 embed)
  let batches := chunker vectors batch_size
  Except.ok
    { vectors := vectors
      batches := batches
      upsertCalls := batches.length
      batchErrors := batches.countP (fun b => isErr (upsert b)) }

/-!
## `src/chunker.py`

The loop body of `process_directory` reads each file twice: once in
binary mode inside `get_file_hash` (line 114, OUTSIDE the `try` of lines
129–140, so a failure there propagates and aborts the walk), and once in
text mode inside `process_file` (inside that function's own `try`, so a
decode failure there is caught).  `RawFile` below models both reads as
fallible; `SrcFile` is its restriction to files whose binary read
succeeds, used by the claims that presuppose a completed walk (the
bridge `runFilesE_of_readable` proves the restriction exact).  The walk
(`os.walk` plus the hidden-file and `should_process_file` filters) is
modelled by the list of files it yields, in order; a real walk yields
each relative path at most once.
-/

/-- A walked file whose binary read succeeded: its path relative to the
walked directory, the raw bytes hashed by `get_file_hash`, and the
outcome of the text-mode read inside `process_file` (`none` models an
undecodable file, whose read inside `process_file` raises and is caught
there).  For the uncaught binary-read failure path see `RawFile` and
`stepFileE`. -/
structure SrcFile where
  relPath : String
  bytes : String
  readResult : Option String
deriving DecidableEq, Repr

/-- The collaborators and configuration a `Chunker` instance closes over:
`md5` (hashlib.md5 hexdigest of a string's bytes), the repo-specific
chunks directory, the optional `repo_url`, the two
`RecursiveCharacterTextSplitter.split_text` functions, the
extension-based code test and the tiktoken token counter. -/
structure ChunkCtx where
  md5 : String → String
  chunksDir : String
  repoUrl : Option String
  splitCode : String → List String
  splitText : String → List String
  isCodeFile : String → Bool
  countTokens : String → Nat

/-- `cache_key = f"{self.repo_url}:{relative_path}" if self.repo_url else relative_path`. -/
def cacheKeyOf (ctx : ChunkCtx) (relPath : String) : String :=
  match ctx.repoUrl with
  | some u => u ++ ":" ++ relPath
  | none => relPath

/-- `cache_path = os.path.join(chunks_dir, hashlib.md5(cache_key.encode()).hexdigest() + ".json")`:
derived by hashing the cache key alone, never the file's content. -/
def cachePathOf (ctx : ChunkCtx) (relPath : String) : String :=
  ctx.chunksDir ++ "/" ++ ctx.md5 (cacheKeyOf ctx relPath) ++ ".json"

/-- `Chunker.process_file`: read and decode the file, pick the code or
text splitter by extension, split, and tag each chunk with its source
path, type and token count.  Any exception (the read/decode raising) is
caught, logged as a file-level error, and turned into `[]`. -/
def process_file (ctx : ChunkCtx) (f : SrcFile) : List Document :=
  match f.readResult with
  | none => []
  | some content =>
    let isCode := ctx.isCodeFile f.relPath
    let chunks := if isCode then ctx.splitCode content else ctx.splitText content
    chunks.map fun chunk =>
      { content := chunk
        metadata := [("source", f.relPath),
                     ("type", if isCode then "code" else "text"),
                     ("token_count", toString (ctx.countTokens chunk))] }

/-- The cache-hit test of `process_directory`:
`os.path.exists(cache_path) and cache_key in cache_metadata and cache_metadata[cache_key] == current_hash`. -/
def cacheHit (ctx : ChunkCtx) (blobs : List (String × List Document))
    (metadata : List (String × String)) (f : SrcFile) : Bool :=
  (getKey blobs (cachePathOf ctx f.relPath)).isSome &&
  (getKey metadata (cacheKeyOf ctx f.relPath)).isSome &&
  (getKey metadata (cacheKeyOf ctx f.relPath) == some (ctx.md5 f.bytes))

/-- The mutable state threaded through `process_directory`'s loop:
the on-disk blob store (cache path ↦ chunk list, JSON round-tripping
modelled as the identity), the in-memory `cache_metadata` dict, the
accumulating `documents` list, the `files_processed` flag, and
observation counters: cache hits served, fresh `process_file` calls,
`split_text` invocations, and file-level errors logged. -/
structure RunState where
  blobs : List (String × List Document)
  metadata : List (String × String)
  documents : List Document
  filesProcessed : Bool
  cacheHits : Nat
  freshCalls : Nat
  splitCalls : Nat
  fileErrors : Nat
deriving Repr

/-- One iteration of the `for file in files` loop body of
`process_directory` (lines 109–140) for a file whose binary read
succeeds; `stepFileE` below lifts this to the fallible binary read, whose
uncaught failure aborts the loop.  On a cache hit, load the blob and
extend `documents`; otherwise call `process_file`, write the blob, update
the metadata entry and set `files_processed`.  `process_file` never
raises (it catches internally and returns `[]`, logging one error), and
filesystem writes are modelled as succeeding, so the `except` at line 139
never fires; the splitter runs only when the fresh read succeeds. -/
def stepFile (ctx : ChunkCtx) (st : RunState) (f : SrcFile) : RunState :=
  let currentHash := ctx.md5 f.bytes
  let cacheKey := cacheKeyOf ctx f.relPath
  let cachePath := cachePathOf ctx f.relPath
  if cacheHit ctx st.blobs st.metadata f then
    { st with
      documents := st.documents ++ (getKey st.blobs cachePath).getD []
      cacheHits := st.cacheHits + 1 }
  else
    let chunks := process_file ctx f
    { st with
      documents := st.documents ++ chunks
      blobs := setKey st.blobs cachePath chunks
      metadata := setKey st.metadata cacheKey currentHash
      filesProcessed := true
      freshCalls := st.freshCalls + 1
      splitCalls := st.splitCalls + (if f.readResult.isSome then 1 else 0)
      fileErrors := st.fileErrors + (if f.readResult.isSome then 0 else 1) }

/-- The walk loop of `process_directory`, folding `stepFile` over the
eligible files in walk order. -/
def runFiles (ctx : ChunkCtx) (st : RunState) : List SrcFile → RunState
  | [] => st
  | f :: fs => runFiles ctx (stepFile ctx st f) fs

/-- Initial loop state: blob store and metadata as loaded from disk
(`load_cache_metadata`), empty `documents`, `files_processed = False`. -/
def initState (blobs : List (String × List Document))
    (metadata : List (String × String)) : RunState :=
  { blobs := blobs, metadata := metadata, documents := [],
    filesProcessed := false, cacheHits := 0, freshCalls := 0,
    splitCalls := 0, fileErrors := 0 }

/-- Result of a whole `process_directory` run: the final loop state, how
many times `save_cache_metadata` wrote the metadata file (lines 142–143:
once iff `files_processed`), and the metadata index as persisted on disk
after the run (unchanged when not written). -/
structure DirResult where
  state : RunState
  metadataWrites : Nat
  persistedMetadata : List (String × String)

/-- `Chunker.process_directory` over the files the walk yields, starting
from the given on-disk blob store and metadata index. -/
def process_directory (ctx : ChunkCtx) (blobs : List (String × List Document))
    (metadata : List (String × String)) (files : List SrcFile) : DirResult :=
  let st := runFiles ctx (initState blobs metadata) files
  { state := st
    metadataWrites := if st.filesProcessed then 1 else 0
    persistedMetadata := if st.filesProcessed then st.metadata else metadata }

/-!
## The fallible binary read (`get_file_hash`, chunker.py:114)

`current_hash = self.get_file_hash(file_path)` runs before the `try` of
lines 129–140 and `get_file_hash` opens and reads the file in binary
mode, so a file that cannot be opened or read (e.g. permission denied)
raises an exception that nothing in `process_directory` catches: the
walk aborts, no documents are returned, no file-level error is logged
for the file, and `save_cache_metadata` never runs.  (A file whose
extension is not in the allow-list never reaches this point:
`should_process_file` → `is_text_file` swallows the open failure and the
file is skipped silently.)
-/

/-- A walked, allow-listed file with the binary read itself fallible:
`rawBytes = none` models `get_file_hash` raising (unreadable file),
`rawBytes = some b` a successful binary read of bytes `b`;
`readResult` is the text-mode read inside `process_file` as in
`SrcFile`. -/
structure RawFile where
  relPath : String
  rawBytes : Option String
  readResult : Option String
deriving DecidableEq, Repr

/-- Restriction of a `RawFile` whose binary read succeeded to the total
model `SrcFile` (the `""` default is never used on readable files). -/
def RawFile.toSrc (f : RawFile) : SrcFile :=
  { relPath := f.relPath, bytes := f.rawBytes.getD "", readResult := f.readResult }

/-- The loop body with the uncaught binary-read failure: `get_file_hash`
raising at chunker.py:114 propagates out of the iteration (and, below,
out of the whole walk); otherwise the iteration proceeds as `stepFile`. -/
def stepFileE (ctx : ChunkCtx) (st : RunState) (f : RawFile) :
    Except String RunState :=
  match f.rawBytes with
  | none => Except.error ("get_file_hash raised for " ++ f.relPath)
  | some b =>
    Except.ok (stepFile ctx st
      { relPath := f.relPath, bytes := b, readResult := f.readResult })

/-- The walk loop over fallible binary reads: the first unreadable file
aborts the remaining iterations. -/
def runFilesE (ctx : ChunkCtx) (st : RunState) : List RawFile → Except String RunState
  | [] => Except.ok st
  | f :: fs =>
    match stepFileE ctx st f with
    | Except.error e => Except.error e
    | Except.ok st' => runFilesE ctx st' fs

/-- `Chunker.process_directory` over fallible binary reads: on an
unreadable file the exception propagates to the caller — no documents
are returned and the metadata file is not written. -/
def process_directoryE (ctx : ChunkCtx) (blobs : List (String × List Document))
    (metadata : List (String × String)) (files : List RawFile) :
    Except String DirResult :=
  match runFilesE ctx (initState blobs metadata) files with
  | Except.error e => Except.error e
  | Except.ok st =>
    Except.ok
      { state := st
        metadataWrites := if st.filesProcessed then 1 else 0
        persistedMetadata := if st.filesProcessed then st.metadata else metadata }

/-! ## Concrete instances used by the witnesses -/

def ctxW : ChunkCtx :=
  { md5 := fun s => "h:" ++ s
    chunksDir := "cache/chunks/ab12cd34"
    repoUrl := some "https://repo.example/x.git"
    splitCode := fun c => [c]
    splitText := fun c => [c]
    isCodeFile := fun p => p.toList.reverse.take 3 == ['y', 'p', '.']
    countTokens := fun c => c.length }

def fileA : SrcFile :=
  { relPath := "a.py", bytes := "print(1)", readResult := some "print(1)" }

def fileB : SrcFile :=
  { relPath := "b.txt", bytes := "hello", readResult := some "hello" }

def fileBad : SrcFile :=
  { relPath := "bin.dat", bytes := "zz", readResult := none }

def rawA : RawFile :=
  { relPath := "a.py", rawBytes := some "print(1)", readResult := some "print(1)" }

def rawB : RawFile :=
  { relPath := "b.txt", rawBytes := some "hello", readResult := some "hello" }

/-- An allow-listed file whose binary read fails (e.g. permission
denied): `get_file_hash` raises. -/
def rawCrash : RawFile :=
  { relPath := "crash.py", rawBytes := none, readResult := none }

/-- A file whose binary read succeeds but whose text-mode decode inside
`process_file` fails. -/
def rawUndecodable : RawFile :=
  { relPath := "bin.dat", rawBytes := some "zz", readResult := none }


/-! ## Association-list lemmas -/

theorem getKey_setKey_self {α : Type} (l : List (String × α)) (k : String) (v : α) :
    getKey (setKey l k v) k = some v := by
  induction l with
  | nil => simp [getKey, setKey]
  | cons p rest ih =>
    obtain ⟨k', v'⟩ := p
    by_cases h : k' = k
    · simp [getKey, setKey, h]
    · simp [getKey, setKey, h, ih]

theorem getKey_setKey_ne {α : Type} (l : List (String × α)) (k k' : String) (v : α)
    (h : k ≠ k') : getKey (setKey l k v) k' = getKey l k' := by
  induction l with
  | nil => simp [getKey, setKey, h]
  | cons p rest ih =>
    obtain ⟨k₀, v₀⟩ := p
    by_cases h0 : k₀ = k
    · subst h0
      simp [getKey, setKey, h]
    · simp only [setKey, if_neg h0, getKey]
      by_cases h1 : k₀ = k'
      · simp [h1]
      · simp [h1, ih]

theorem getKey_setKey_isSome {α : Type} (l : List (String × α)) (k k' : String) (v : α)
    (h : (getKey l k').isSome) : (getKey (setKey l k v) k').isSome := by
  by_cases hk : k = k'
  · subst hk
    simp [getKey_setKey_self]
  · rwa [getKey_setKey_ne l k k' v hk]

/-! ## Batching lemmas (`PineconeUploader.chunker`) -/

theorem chunker_nil {α : Type} (size : Nat) : chunker ([] : List α) size = [] := by
  rw [chunker]
  simp

theorem chunker_eq_cons {α : Type} (seq : List α) (size : Nat)
    (hs : seq ≠ []) (hz : size ≠ 0) :
    chunker seq size = seq.take size :: chunker (seq.drop size) size := by
  rw [chunker]
  simp [List.isEmpty_iff, hs, hz]

theorem chunker_join {α : Type} (seq : List α) (size : Nat) (hz : size ≠ 0) :
    (chunker seq size).flatten = seq := by
  by_cases hs : seq = []
  · simp [hs, chunker_nil]
  · rw [chunker_eq_cons seq size hs hz]
    have ih := chunker_join (seq.drop size) size hz
    simp [List.flatten, ih, List.take_append_drop]
termination_by seq.length
decreasing_by
  have hlen : 0 < seq.length := List.length_pos.mpr hs
  simpa [List.length_drop] using Nat.sub_lt hlen (Nat.pos_of_ne_zero hz)

theorem chunker_mem_length_le {α : Type} (seq : List α) (size : Nat) (hz : size ≠ 0)
    (b : List α) (hb : b ∈ chunker seq size) : b.length ≤ size := by
  by_cases hs : seq = []
  · rw [hs, chunker_nil] at hb
    simp at hb
  · rw [chunker_eq_cons seq size hs hz] at hb
    rcases List.mem_cons.mp hb with h | h
    · subst h
      simp [List.length_take]
    · exact chunker_mem_length_le (seq.drop size) size hz b h
termination_by seq.length
decreasing_by
  have hlen : 0 < seq.length := List.length_pos.mpr hs
  simpa [List.length_drop] using Nat.sub_lt hlen (Nat.pos_of_ne_zero hz)

theorem chunker_dropLast_length {α : Type} (seq : List α) (size : Nat) (hz : size ≠ 0)
    (b : List α) (hb : b ∈ (chunker seq size).dropLast) : b.length = size := by
  by_cases hs : seq = []
  · rw [hs, chunker_nil] at hb
    simp at hb
  · rw [chunker_eq_cons seq size hs hz] at hb
    by_cases hd : seq.drop size = []
    · rw [hd, chunker_nil] at hb
      simp at hb
    · have hne : chunker (seq.drop size) size ≠ [] := by
        rw [chunker_eq_cons (seq.drop size) size hd hz]
        simp
      rw [List.dropLast_cons_of_ne_nil hne] at hb
      rcases List.mem_cons.mp hb with h | h
      · subst h
        have hgt : size ≤ seq.length := by
          by_contra hlt
          push_neg at hlt
          exact hd (List.drop_eq_nil_of_le (Nat.le_of_lt hlt))
        simp [List.length_take, Nat.min_eq_left hgt]
      · exact chunker_dropLast_length (seq.drop size) size hz b h
termination_by seq.length
decreasing_by
  have hlen : 0 < seq.length := List.length_pos.mpr hs
  simpa [List.length_drop] using Nat.sub_lt hlen (Nat.pos_of_ne_zero hz)

theorem chunker_length {α : Type} (seq : List α) (size : Nat) (hz : size ≠ 0) :
    (chunker seq size).length = (seq.length + size - 1) / size := by
  by_cases hs : seq = []
  · subst hs
    simp [chunker_nil, Nat.div_eq_of_lt (Nat.sub_lt (Nat.pos_of_ne_zero hz) Nat.one_pos)]
  · rw [chunker_eq_cons seq size hs hz]
    have hpos : 0 < seq.length := List.length_pos.mpr hs
    have ih := chunker_length (seq.drop size) size hz
    rw [List.length_cons, ih, List.length_drop]
    by_cases hle : size ≤ seq.length
    · have h1 : seq.length - size + size - 1 = seq.length - 1 := by
        omega
      have h2 : seq.length + size - 1 = (seq.length - 1) + size := by
        omega
      rw [h1, h2, Nat.add_div_right _ (Nat.pos_of_ne_zero hz)]
    · push_neg at hle
      have h1 : seq.length - size = 0 := Nat.sub_eq_zero_of_le (Nat.le_of_lt hle)
      rw [h1]
      have h2 : (size - 1) / size = 0 :=
        Nat.div_eq_of_lt (Nat.sub_lt (Nat.pos_of_ne_zero hz) Nat.one_pos)
      rw [Nat.zero_add, h2]
      have h3 : (seq.length + size - 1) / size = 1 :=
        Nat.div_eq_of_lt_le (by omega) (by omega)
      omega
termination_by seq.length
decreasing_by
  have hlen : 0 < seq.length := List.length_pos.mpr hs
  simpa [List.length_drop] using Nat.sub_lt hlen (Nat.pos_of_ne_zero hz)

/-! ## Embedding-retry lemmas (`get_embedding`) -/

theorem get_embedding_of_always_error {Emb : Type} (embed : Nat → Except String Emb)
    (er : String) (h : ∀ n, embed n = Except.error er) :
    get_embedding embed = (Except.error er, 3) := by
  simp [get_embedding, max_retries, getEmbeddingLoop, h]

theorem get_embedding_of_first_ok {Emb : Type} (embed : Nat → Except String Emb)
    (e : Emb) (h : embed 0 = Except.ok e) :
    get_embedding embed = (Except.ok e, 1) := by
  simp [get_embedding, max_retries, getEmbeddingLoop, h]

theorem length_filterMap_of_isSome {α β : Type} (f : α → Option β) (l : List α)
    (h : ∀ a ∈ l, (f a).isSome) : (l.filterMap f).length = l.length := by
  induction l with
  | nil => simp
  | cons a l ih =>
    obtain ⟨b, hb⟩ := Option.isSome_iff_exists.mp (h a (by simp))
    rw [List.filterMap_cons_some hb, List.length_cons, List.length_cons,
      ih (fun x hx => h x (by simp [hx]))]

/-! ## Cache-state lemmas (`Chunker.process_directory`) -/

theorem cacheHit_iff (ctx : ChunkCtx) (blobs : List (String × List Document))
    (metadata : List (String × String)) (f : SrcFile) :
    cacheHit ctx blobs metadata f = true ↔
      ((getKey blobs (cachePathOf ctx f.relPath)).isSome = true ∧
       getKey metadata (cacheKeyOf ctx f.relPath) = some (ctx.md5 f.bytes)) := by
  constructor
  · intro h
    simp only [cacheHit, Bool.and_eq_true, beq_iff_eq] at h
    exact ⟨h.1.1, h.2⟩
  · intro h
    simp only [cacheHit, Bool.and_eq_true, beq_iff_eq]
    exact ⟨⟨h.1, by rw [h.2]; rfl⟩, h.2⟩

theorem cacheHit_false_of_metadata_none (ctx : ChunkCtx)
    (blobs : List (String × List Document)) (metadata : List (String × String))
    (f : SrcFile) (h : getKey metadata (cacheKeyOf ctx f.relPath) = none) :
    cacheHit ctx blobs metadata f = false := by
  rw [← Bool.not_eq_true, cacheHit_iff]
  rintro ⟨-, h2⟩
  rw [h] at h2
  exact Option.noConfusion h2

theorem stepFile_of_hit (ctx : ChunkCtx) (st : RunState) (f : SrcFile)
    (h : cacheHit ctx st.blobs st.metadata f = true) :
    stepFile ctx st f =
      { st with
        documents := st.documents ++ (getKey st.blobs (cachePathOf ctx f.relPath)).getD []
        cacheHits := st.cacheHits + 1 } := by
  simp [stepFile, h]

theorem stepFile_of_miss (ctx : ChunkCtx) (st : RunState) (f : SrcFile)
    (h : cacheHit ctx st.blobs st.metadata f = false) :
    stepFile ctx st f =
      { st with
        documents := st.documents ++ process_file ctx f
        blobs := setKey st.blobs (cachePathOf ctx f.relPath) (process_file ctx f)
        metadata := setKey st.metadata (cacheKeyOf ctx f.relPath) (ctx.md5 f.bytes)
        filesProcessed := true
        freshCalls := st.freshCalls + 1
        splitCalls := st.splitCalls + (if f.readResult.isSome then 1 else 0)
        fileErrors := st.fileErrors + (if f.readResult.isSome then 0 else 1) } := by
  simp [stepFile, h]

/-- After processing `f` itself, `f`'s cache entry is good: a hit leaves
the already-good entry in place, a miss writes the blob and the current
hash. -/
theorem goodEntry_established (ctx : ChunkCtx) (st : RunState) (f : SrcFile) :
    cacheHit ctx (stepFile ctx st f).blobs (stepFile ctx st f).metadata f = true := by
  cases h : cacheHit ctx st.blobs st.metadata f with
  | true => rw [stepFile_of_hit ctx st f h]; exact h
  | false =>
    rw [stepFile_of_miss ctx st f h, cacheHit_iff]
    constructor
    · simp [getKey_setKey_self]
    · exact getKey_setKey_self _ _ _

/-- Processing a file with a different cache key preserves the goodness of
`f`'s entry: blob existence survives any blob write, and `f`'s metadata
entry is untouched. -/
theorem goodEntry_preserved (ctx : ChunkCtx) (st : RunState) (f g : SrcFile)
    (hne : cacheKeyOf ctx g.relPath ≠ cacheKeyOf ctx f.relPath)
    (h : cacheHit ctx st.blobs st.metadata f = true) :
    cacheHit ctx (stepFile ctx st g).blobs (stepFile ctx st g).metadata f = true := by
  rw [cacheHit_iff] at h
  cases hg : cacheHit ctx st.blobs st.metadata g with
  | true => rw [stepFile_of_hit ctx st g hg, cacheHit_iff]; exact h
  | false =>
    rw [stepFile_of_miss ctx st g hg, cacheHit_iff]
    constructor
    · exact getKey_setKey_isSome _ _ _ _ h.1
    · rw [getKey_setKey_ne _ _ _ _ hne]
      exact h.2

theorem goodEntry_runFiles (ctx : ChunkCtx) (fs : List SrcFile) (st : RunState)
    (f : SrcFile)
    (hne : ∀ g ∈ fs, cacheKeyOf ctx g.relPath ≠ cacheKeyOf ctx f.relPath)
    (h : cacheHit ctx st.blobs st.metadata f = true) :
    cacheHit ctx (runFiles ctx st fs).blobs (runFiles ctx st fs).metadata f = true := by
  induction fs generalizing st with
  | nil => exact h
  | cons g rest ih =>
    exact ih (stepFile ctx st g) (fun x hx => hne x (by simp [hx]))
      (goodEntry_preserved ctx st f g (hne g (by simp)) h)

/-- The central cache invariant: after a run over files with pairwise
distinct cache keys, every processed file has a good cache entry (blob
present, stored hash equal to the file's current hash). -/
theorem runFiles_goodEntry_all (ctx : ChunkCtx) (fs : List SrcFile) (st : RunState)
    (hnd : (fs.map (fun g => cacheKeyOf ctx g.relPath)).Nodup) :
    ∀ f ∈ fs, cacheHit ctx (runFiles ctx st fs).blobs (runFiles ctx st fs).metadata f
      = true := by
  induction fs generalizing st with
  | nil => intro f hf; simp at hf
  | cons g rest ih =>
    intro f hf
    rw [List.map_cons, List.nodup_cons] at hnd
    rcases List.mem_cons.mp hf with rfl | hf'
    · show cacheHit ctx (runFiles ctx (stepFile ctx st f) rest).blobs
        (runFiles ctx (stepFile ctx st f) rest).metadata f = true
      apply goodEntry_runFiles ctx rest (stepFile ctx st f) f
      · intro x hx hcontra
        exact hnd.1 (hcontra ▸ List.mem_map_of_mem _ hx)
      · exact goodEntry_established ctx st f
    · exact ih (stepFile ctx st g) hnd.2 f hf'

/-- When every file's entry is already good, the run serves every file
from cache: blob store, metadata, flag and the fresh/split counters are
untouched, and `cacheHits` counts every file. -/
theorem runFiles_all_hits (ctx : ChunkCtx) (fs : List SrcFile) (st : RunState)
    (h : ∀ f ∈ fs, cacheHit ctx st.blobs st.metadata f = true) :
    (runFiles ctx st fs).blobs = st.blobs ∧
    (runFiles ctx st fs).metadata = st.metadata ∧
    (runFiles ctx st fs).cacheHits = st.cacheHits + fs.length ∧
    (runFiles ctx st fs).freshCalls = st.freshCalls ∧
    (runFiles ctx st fs).splitCalls = st.splitCalls ∧
    (runFiles ctx st fs).fileErrors = st.fileErrors ∧
    (runFiles ctx st fs).filesProcessed = st.filesProcessed := by
  induction fs generalizing st with
  | nil => exact ⟨rfl, rfl, by simp [runFiles], rfl, rfl, rfl, rfl⟩
  | cons f rest ih =>
    have hf := h f (by simp)
    have hstep := stepFile_of_hit ctx st f hf
    have hrest : ∀ g ∈ rest, cacheHit ctx (stepFile ctx st f).blobs
        (stepFile ctx st f).metadata g = true := by
      intro g hg
      rw [hstep]
      exact h g (by simp [hg])
    have hthis := ih (stepFile ctx st f) hrest
    rw [hstep] at hthis
    have hrun : runFiles ctx st (f :: rest) = runFiles ctx (stepFile ctx st f) rest := rfl
    rw [hrun, hstep]
    refine ⟨hthis.1, hthis.2.1, ?_, hthis.2.2.2.1, hthis.2.2.2.2.1,
      hthis.2.2.2.2.2.1, hthis.2.2.2.2.2.2⟩
    rw [hthis.2.2.1]
    simp only [List.length_cons]
    omega

theorem filesProcessed_mono (ctx : ChunkCtx) (fs : List SrcFile) (st : RunState)
    (h : st.filesProcessed = true) : (runFiles ctx st fs).filesProcessed = true := by
  induction fs generalizing st with
  | nil => exact h
  | cons f rest ih =>
    apply ih
    cases hf : cacheHit ctx st.blobs st.metadata f with
    | true => rw [stepFile_of_hit ctx st f hf]; exact h
    | false => rw [stepFile_of_miss ctx st f hf]

theorem freshCalls_mono (ctx : ChunkCtx) (fs : List SrcFile) (st : RunState) :
    st.freshCalls ≤ (runFiles ctx st fs).freshCalls := by
  induction fs generalizing st with
  | nil => exact Nat.le_refl _
  | cons f rest ih =>
    refine Nat.le_trans ?_ (ih (stepFile ctx st f))
    cases hf : cacheHit ctx st.blobs st.metadata f with
    | true => rw [stepFile_of_hit ctx st f hf]
    | false => rw [stepFile_of_miss ctx st f hf]; exact Nat.le_succ _

/-- When no fresh processing happened, the blob store, the metadata and
the fresh counter are exactly as they started (every step was a hit). -/
theorem runFiles_not_processed (ctx : ChunkCtx) (fs : List SrcFile) (st : RunState)
    (h : (runFiles ctx st fs).filesProcessed = false) :
    (runFiles ctx st fs).blobs = st.blobs ∧
    (runFiles ctx st fs).metadata = st.metadata ∧
    (runFiles ctx st fs).freshCalls = st.freshCalls ∧
    st.filesProcessed = false := by
  induction fs generalizing st with
  | nil => exact ⟨rfl, rfl, rfl, h⟩
  | cons f rest ih =>
    have hrun : runFiles ctx st (f :: rest) = runFiles ctx (stepFile ctx st f) rest := rfl
    rw [hrun] at h ⊢
    cases hf : cacheHit ctx st.blobs st.metadata f with
    | true =>
      have hstep := stepFile_of_hit ctx st f hf
      rw [hstep] at h ⊢
      have := ih _ h
      exact ⟨this.1, this.2.1, this.2.2.1, this.2.2.2⟩
    | false =>
      exfalso
      have : (stepFile ctx st f).filesProcessed = true := by
        rw [stepFile_of_miss ctx st f hf]
      rw [filesProcessed_mono ctx rest _ this] at h
      exact Bool.noConfusion h

/-- `files_processed` ends true iff some file was freshly processed. -/
theorem filesProcessed_iff_fresh (ctx : ChunkCtx) (fs : List SrcFile) (st : RunState)
    (h0 : st.filesProcessed = false) :
    ((runFiles ctx st fs).filesProcessed = true ↔
      st.freshCalls < (runFiles ctx st fs).freshCalls) := by
  induction fs generalizing st with
  | nil =>
    simp only [runFiles, h0]
    exact ⟨fun h => Bool.noConfusion h, fun h => absurd rfl (Nat.ne_of_lt h)⟩
  | cons f rest ih =>
    have hrun : runFiles ctx st (f :: rest) = runFiles ctx (stepFile ctx st f) rest := rfl
    rw [hrun]
    cases hf : cacheHit ctx st.blobs st.metadata f with
    | true =>
      have hstep := stepFile_of_hit ctx st f hf
      rw [hstep]
      exact ih _ h0
    | false =>
      have hstep := stepFile_of_miss ctx st f hf
      constructor
      · intro _
        have h1 : (stepFile ctx st f).freshCalls = st.freshCalls + 1 := by
          rw [hstep]
        have h2 := freshCalls_mono ctx rest (stepFile ctx st f)
        omega
      · intro _
        apply filesProcessed_mono
        rw [hstep]

/-- From a metadata index with no entry for any of the files (and
pairwise distinct cache keys), every file is freshly processed: the
documents are the concatenation of `process_file` over the files in walk
order, the splitter runs once per readable file, and one file-level error
is logged per unreadable file. -/
theorem runFiles_all_fresh (ctx : ChunkCtx) (fs : List SrcFile) (st : RunState)
    (hnone : ∀ f ∈ fs, getKey st.metadata (cacheKeyOf ctx f.relPath) = none)
    (hnd : (fs.map (fun g => cacheKeyOf ctx g.relPath)).Nodup) :
    (runFiles ctx st fs).documents = st.documents ++ fs.flatMap (process_file ctx) ∧
    (runFiles ctx st fs).cacheHits = st.cacheHits ∧
    (runFiles ctx st fs).freshCalls = st.freshCalls + fs.length ∧
    (runFiles ctx st fs).fileErrors
      = st.fileErrors + fs.countP (fun f => f.readResult.isNone) ∧
    (runFiles ctx st fs).splitCalls
      = st.splitCalls + fs.countP (fun f => f.readResult.isSome) := by
  induction fs generalizing st with
  | nil => simp [runFiles]
  | cons f rest ih =>
    rw [List.map_cons, List.nodup_cons] at hnd
    have hf : cacheHit ctx st.blobs st.metadata f = false :=
      cacheHit_false_of_metadata_none ctx st.blobs st.metadata f (hnone f (by simp))
    have hstep := stepFile_of_miss ctx st f hf
    have hrun : runFiles ctx st (f :: rest) = runFiles ctx (stepFile ctx st f) rest := rfl
    have hnone' : ∀ g ∈ rest, getKey (stepFile ctx st f).metadata
        (cacheKeyOf ctx g.relPath) = none := by
      intro g hg
      rw [hstep]
      show getKey (setKey st.metadata (cacheKeyOf ctx f.relPath) (ctx.md5 f.bytes))
        (cacheKeyOf ctx g.relPath) = none
      rw [getKey_setKey_ne]
      · exact hnone g (by simp [hg])
      · intro hcontra
        exact hnd.1 (hcontra ▸ List.mem_map_of_mem _ hg)
    have hthis := ih (stepFile ctx st f) hnone' hnd.2
    rw [hstep] at hthis
    rw [hrun, hstep]
    refine ⟨?_, ?_, ?_, ?_, ?_⟩
    · rw [hthis.1]
      simp [List.flatMap_cons, List.append_assoc]
    · exact hthis.2.1
    · rw [hthis.2.2.1]
      simp only [List.length_cons]
      omega
    · rw [hthis.2.2.2.1]
      simp only [List.countP_cons]
      rcases hr : f.readResult with _ | c <;> simp [hr] <;> try omega
    · rw [hthis.2.2.2.2]
      simp only [List.countP_cons]
      rcases hr : f.readResult with _ | c <;> simp [hr] <;> try omega


/-!
## Claims about the upload pipeline
-/

/-- Claim C6: for every list of vectors and every positive batch size, the
batching helper `chunker` yields batches each of size at most the batch
size, every batch except possibly the last of exactly the batch size, and
the in-order concatenation of all batches equals the input list; in
particular 3 vectors with a batch size of 2 yield exactly the 2 batches
`[[a, b], [c]]`, of sizes 2 and 1. -/
theorem c6_batching_partition {α : Type} (seq : List α) (size : Nat) (hpos : 0 < size) :
    (∀ b ∈ chunker seq size, b.length ≤ size) ∧
    (∀ b ∈ (chunker seq size).dropLast, b.length = size) ∧
    (chunker seq size).flatten = seq ∧
    (∀ a b c : α, chunker [a, b, c] 2 = [[a, b], [c]]) := by
  have hz : size ≠ 0 := Nat.pos_iff_ne_zero.mp hpos
  refine ⟨fun b hb => chunker_mem_length_le seq size hz b hb,
          fun b hb => chunker_dropLast_length seq size hz b hb,
          chunker_join seq size hz,
          fun a b c => ?_⟩
  have h1 : chunker [a, b, c] 2 = [a, b] :: chunker [c] 2 := by
    rw [chunker_eq_cons _ _ (by simp) (by decide)]
    rfl
  have h2 : chunker [c] 2 = [c] :: chunker ([] : List α) 2 := by
    rw [chunker_eq_cons _ _ (by simp) (by decide)]
    rfl
  rw [h1, h2, chunker_nil]

theorem c6_batching_partition_witness :
    (0 : Nat) < 2 ∧
    ((∀ b ∈ chunker [10, 20, 30] 2, b.length ≤ 2) ∧
     (∀ b ∈ (chunker [10, 20, 30] 2).dropLast, b.length = 2) ∧
     (chunker [10, 20, 30] 2).flatten = [10, 20, 30] ∧
     (∀ a b c : Nat, chunker [a, b, c] 2 = [[a, b], [c]])) :=
  ⟨by decide, c6_batching_partition [10, 20, 30] 2 (by decide)⟩

/-- Claim C4: the vector id built by `_create_vector` is the MD5 hex
digest of the chunk's content alone: any two documents with equal content
yield vectors with equal ids, independently of their metadata or of the
embedding collaborator (i.e. of the run). -/
theorem c4_vector_id_content_hash {Emb : Type} (md5 : String → String)
    (embed1 embed2 : Document → Nat → Except String Emb) (d1 d2 : Document)
    (hc : d1.content = d2.content) (v1 v2 : PVector Emb)
    (h1 : create_vector md5 embed1 d1 = some v1)
    (h2 : create_vector md5 embed2 d2 = some v2) :
    v1.id = md5 d1.content ∧ v2.id = md5 d2.content ∧ v1.id = v2.id := by
  have g1 : v1.id = md5 d1.content := by
    unfold create_vector at h1
    split at h1
    · injection h1 with h
      subst h
      rfl
    · exact absurd h1 (by simp)
  have g2 : v2.id = md5 d2.content := by
    unfold create_vector at h2
    split at h2
    · injection h2 with h
      subst h
      rfl
    · exact absurd h2 (by simp)
  exact ⟨g1, g2, by rw [g1, g2, hc]⟩

theorem c4_vector_id_content_hash_witness :
    ({ content := "same", metadata := [] } : Document).content =
      ({ content := "same", metadata := [("source", "a.py")] } : Document).content ∧
    create_vector (fun s => s ++ "@md5") (fun _ _ => Except.ok (0 : Nat))
        { content := "same", metadata := [] } =
      some { id := "same@md5", values := 0, metadata := [("content", "same")] } ∧
    create_vector (fun s => s ++ "@md5") (fun _ _ => Except.ok (7 : Nat))
        { content := "same", metadata := [("source", "a.py")] } =
      some { id := "same@md5", values := 7,
             metadata := [("content", "same"), ("source", "a.py")] } ∧
    (({ id := "same@md5", values := 0, metadata := [("content", "same")] } : PVector Nat).id =
        (fun s => s ++ "@md5") ({ content := "same", metadata := [] } : Document).content ∧
     ({ id := "same@md5", values := 7,
        metadata := [("content", "same"), ("source", "a.py")] } : PVector Nat).id =
        (fun s => s ++ "@md5")
          ({ content := "same", metadata := [("source", "a.py")] } : Document).content ∧
     ({ id := "same@md5", values := 0, metadata := [("content", "same")] } : PVector Nat).id =
        ({ id := "same@md5", values := 7,
           metadata := [("content", "same"), ("source", "a.py")] } : PVector Nat).id) :=
  ⟨rfl, rfl, rfl,
   c4_vector_id_content_hash (fun s => s ++ "@md5")
     (fun _ _ => Except.ok (0 : Nat)) (fun _ _ => Except.ok (7 : Nat))
     { content := "same", metadata := [] }
     { content := "same", metadata := [("source", "a.py")] } rfl _ _ rfl rfl⟩

/-- Claim C3: for a document whose embedding call always fails, exactly 3
embedding attempts are made, after which `get_embedding`'s exception is
caught in `_create_vector`, the document is dropped from the upload
(`_create_vector` yields `None`, filtered out by `if vector:`), and
`upload_documents` completes successfully with one vector for each
remaining document (whose embedding succeeds on its first attempt).  The
fixed sleep between attempts is a real-time effect outside the model. -/
theorem c3_embedding_retries_then_drop {Emb : Type} (md5 : String → String)
    (embed : Document → Nat → Except String Emb)
    (upsert : List (PVector Emb) → Except String Unit)
    (pre post : List Document) (bad : Document) (er : String)
    (hbad : ∀ n, embed bad n = Except.error er)
    (hgood : ∀ d ∈ pre ++ post, ∃ e, embed d 0 = Except.ok e) :
    (get_embedding (embed bad)).2 = 3 ∧
    (get_embedding (embed bad)).1 = Except.error er ∧
    create_vector md5 embed bad = none ∧
    ∃ out, upload_documents md5 embed upsert (pre ++ bad :: post) = Except.ok out ∧
      out.vectors = (pre ++ post).filterMap (create_vector md5 embed) ∧
      out.vectors.length = (pre ++ post).length := by
  have hge := get_embedding_of_always_error (embed bad) er hbad
  have hcv : create_vector md5 embed bad = none := by
    unfold create_vector
    rw [hge]
  have hv : (pre ++ bad :: post).filterMap (create_vector md5 embed)
      = (pre ++ post).filterMap (create_vector md5 embed) := by
    rw [List.filterMap_append, List.filterMap_append, List.filterMap_cons_none hcv]
  have hlen : ((pre ++ post).filterMap (create_vector md5 embed)).length
      = (pre ++ post).length := by
    apply length_filterMap_of_isSome
    intro d hd
    obtain ⟨e, he⟩ := hgood d hd
    simp [create_vector, get_embedding_of_first_ok (embed d) e he]
  refine ⟨by rw [hge], by rw [hge], hcv, ⟨_, rfl, ?_, ?_⟩⟩
  · exact hv
  · show ((pre ++ bad :: post).filterMap (create_vector md5 embed)).length = _
    rw [hv, hlen]

theorem c3_embedding_retries_then_drop_witness :
    (∀ n, (fun (d : Document) (_ : Nat) =>
        if d.content = "bad" then (Except.error "boom" : Except String Nat)
        else Except.ok 1) { content := "bad", metadata := [] } n =
      Except.error "boom") ∧
    (∀ d ∈ [({ content := "a", metadata := [] } : Document)] ++
        [({ content := "b", metadata := [] } : Document)],
      ∃ e, (fun (d : Document) (_ : Nat) =>
        if d.content = "bad" then (Except.error "boom" : Except String Nat)
        else Except.ok 1) d 0 = Except.ok e) ∧
    ((get_embedding ((fun (d : Document) (_ : Nat) =>
        if d.content = "bad" then (Except.error "boom" : Except String Nat)
        else Except.ok 1) { content := "bad", metadata := [] })).2 = 3 ∧
     (get_embedding ((fun (d : Document) (_ : Nat) =>
        if d.content = "bad" then (Except.error "boom" : Except String Nat)
        else Except.ok 1) { content := "bad", metadata := [] })).1 =
       Except.error "boom" ∧
     create_vector (fun s => s) (fun (d : Document) (_ : Nat) =>
        if d.content = "bad" then (Except.error "boom" : Except String Nat)
        else Except.ok 1) { content := "bad", metadata := [] } = none ∧
     ∃ out, upload_documents (fun s => s) (fun (d : Document) (_ : Nat) =>
          if d.content = "bad" then (Except.error "boom" : Except String Nat)
          else Except.ok 1) (fun _ => Except.ok ())
          ([{ content := "a", metadata := [] }] ++
            { content := "bad", metadata := [] } :: [{ content := "b", metadata := [] }]) =
        Except.ok out ∧
       out.vectors = ([({ content := "a", metadata := [] } : Document)] ++
          [({ content := "b", metadata := [] } : Document)]).filterMap
            (create_vector (fun s => s) (fun (d : Document) (_ : Nat) =>
              if d.content = "bad" then (Except.error "boom" : Except String Nat)
              else Except.ok 1)) ∧
       out.vectors.length = ([({ content := "a", metadata := [] } : Document)] ++
          [({ content := "b", metadata := [] } : Document)]).length) :=
  ⟨fun _ => rfl,
   by
     intro d hd
     simp only [List.mem_append, List.mem_singleton] at hd
     rcases hd with rfl | rfl
     · exact ⟨1, rfl⟩
     · exact ⟨1, rfl⟩,
   c3_embedding_retries_then_drop (fun s => s)
     (fun (d : Document) (_ : Nat) =>
        if d.content = "bad" then (Except.error "boom" : Except String Nat)
        else Except.ok 1)
     (fun _ => Except.ok ())
     [{ content := "a", metadata := [] }] [{ content := "b", metadata := [] }]
     { content := "bad", metadata := [] } "boom" (fun _ => rfl)
     (by
       intro d hd
       simp only [List.mem_append, List.mem_singleton] at hd
       rcases hd with rfl | rfl
       · exact ⟨1, rfl⟩
       · exact ⟨1, rfl⟩)⟩

/-- Claim C2, counterexample: with a single document (one batch) and an
upsert collaborator that always fails, `upload_documents` makes exactly 1
upsert attempt for the failing batch — not 3 — logs the error, drops the
batch, and returns successfully: the failure never surfaces to the
caller, contradicting "up to 3 attempts ... exhausting those retries is
fatal for the run". -/
theorem c2_counterexample :
    (upload_documents (fun s => s) (fun _ _ => Except.ok (0 : Nat))
        (fun _ => Except.error "upsert failed")
        [{ content := "chunk", metadata := [] }]).toOption.map
      (fun out => (out.upsertCalls, out.batchErrors)) = some (1, 1) ∧ (1 : Nat) ≠ 3 := by
  constructor
  · have hb : chunker
        [({ id := "chunk", values := 0, metadata := [("content", "chunk")] } : PVector Nat)]
        batch_size
        = [[{ id := "chunk", values := 0, metadata := [("content", "chunk")] }]] := by
      rw [chunker_eq_cons _ _ (by simp) (by decide)]
      rw [List.take_of_length_le (by simp [batch_size]),
        List.drop_eq_nil_of_le (by simp [batch_size]), chunker_nil]
    simp [upload_documents, create_vector, get_embedding, max_retries,
      getEmbeddingLoop, hb, isErr]
    exact ⟨_, rfl, rfl, rfl⟩
  · decide

/-- Claim C2, amended: each batch whose upsert fails is attempted exactly
once (one `index.upsert` call per batch, `⌈n / batch_size⌉` calls in
total); the failure is caught and logged, the batch is dropped, and
`upload_documents` returns successfully — the failure does not surface
to the caller. -/
theorem c2_batch_upsert_once_nonfatal {Emb : Type} (md5 : String → String)
    (embed : Document → Nat → Except String Emb)
    (upsert : List (PVector Emb) → Except String Unit) (documents : List Document) :
    ∃ out, upload_documents md5 embed upsert documents = Except.ok out ∧
      out.upsertCalls = out.batches.length ∧
      out.upsertCalls = (out.vectors.length + batch_size - 1) / batch_size ∧
      out.batchErrors = out.batches.countP (fun b => isErr (upsert b)) := by
  refine ⟨_, rfl, rfl, ?_, rfl⟩
  show (chunker (documents.filterMap (create_vector md5 embed)) batch_size).length
    = ((documents.filterMap (create_vector md5 embed)).length + batch_size - 1) / batch_size
  exact chunker_length _ _ (by decide)

/-- Claim C8: the claim bounds the number of vectors held in flight by
`queueBound_embedding + queueBound_upload + batchSize` regardless of
input size.  The code has no queues and no such bounds:
`upload_documents` is phase-sequential and gathers every successfully
embedded vector into one in-memory list (`vectors`, lines 88–97) before
the first `index.upsert` call (line 106), so the peak in-flight count
equals the number of embedded documents.  For any values `qE`, `qU` of
the claim's bounds, a run over `qE + qU + batch_size + 1` documents
(each embedding succeeding at once) holds that many vectors
simultaneously, exceeding the claimed bound. -/
theorem c8_all_vectors_held_before_upload (qE qU : Nat) :
    ∃ out, upload_documents (fun s => s) (fun _ _ => Except.ok (0 : Nat))
        (fun _ => Except.ok ())
        (List.replicate (qE + qU + batch_size + 1) { content := "c", metadata := [] })
      = Except.ok out ∧
      out.vectors.length = qE + qU + batch_size + 1 ∧
      qE + qU + batch_size < out.vectors.length := by
  have hsome : ∀ d ∈ List.replicate (qE + qU + batch_size + 1)
      ({ content := "c", metadata := [] } : Document),
      ((create_vector (fun s => s) (fun _ _ => Except.ok (0 : Nat))) d).isSome := by
    intro d _
    simp [create_vector, get_embedding, getEmbeddingLoop, max_retries]
  have hlen := length_filterMap_of_isSome _ _ hsome
  rw [List.length_replicate] at hlen
  exact ⟨_, rfl, hlen, by rw [hlen]; omega⟩

/-!
## Claims about the chunk cache
-/

/-- Claim C1: a file is served from cache (its step increments
`cacheHits` and leaves the fresh/split counters alone) if and only if its
blob exists at the cache path, its cache key is in the metadata index,
and the stored hash equals the MD5 of its current bytes; otherwise it is
freshly processed and its metadata entry updated.  Consequently a second
run over the same files, starting from the first run's persisted cache,
serves every file from cache with zero splitter invocations. -/
theorem c1_cache_hit_iff_and_second_run (ctx : ChunkCtx) (st : RunState) (f : SrcFile)
    (blobs0 : List (String × List Document)) (meta0 : List (String × String))
    (files : List SrcFile)
    (hnd : (files.map (fun g => cacheKeyOf ctx g.relPath)).Nodup) :
    ((stepFile ctx st f).cacheHits = st.cacheHits + 1 ↔
      ((getKey st.blobs (cachePathOf ctx f.relPath)).isSome = true ∧
       (getKey st.metadata (cacheKeyOf ctx f.relPath)).isSome = true ∧
       getKey st.metadata (cacheKeyOf ctx f.relPath) = some (ctx.md5 f.bytes))) ∧
    (cacheHit ctx st.blobs st.metadata f = true →
      (stepFile ctx st f).splitCalls = st.splitCalls ∧
      (stepFile ctx st f).freshCalls = st.freshCalls) ∧
    (cacheHit ctx st.blobs st.metadata f = false →
      (stepFile ctx st f).freshCalls = st.freshCalls + 1 ∧
      getKey (stepFile ctx st f).metadata (cacheKeyOf ctx f.relPath)
        = some (ctx.md5 f.bytes)) ∧
    ((process_directory ctx (process_directory ctx blobs0 meta0 files).state.blobs
        (process_directory ctx blobs0 meta0 files).persistedMetadata
        files).state.splitCalls = 0 ∧
     (process_directory ctx (process_directory ctx blobs0 meta0 files).state.blobs
        (process_directory ctx blobs0 meta0 files).persistedMetadata
        files).state.freshCalls = 0 ∧
     (process_directory ctx (process_directory ctx blobs0 meta0 files).state.blobs
        (process_directory ctx blobs0 meta0 files).persistedMetadata
        files).state.cacheHits = files.length) := by
  refine ⟨?_, ?_, ?_, ?_⟩
  · constructor
    · intro h
      cases hf : cacheHit ctx st.blobs st.metadata f with
      | true =>
        have := (cacheHit_iff ctx st.blobs st.metadata f).mp hf
        exact ⟨this.1, by rw [this.2]; rfl, this.2⟩
      | false =>
        exfalso
        rw [stepFile_of_miss ctx st f hf] at h
        exact Nat.succ_ne_self st.cacheHits (by simpa using h.symm)
    · intro h
      have hf : cacheHit ctx st.blobs st.metadata f = true :=
        (cacheHit_iff ctx st.blobs st.metadata f).mpr ⟨h.1, h.2.2⟩
      rw [stepFile_of_hit ctx st f hf]
  · intro hf
    rw [stepFile_of_hit ctx st f hf]
    exact ⟨rfl, rfl⟩
  · intro hf
    rw [stepFile_of_miss ctx st f hf]
    exact ⟨rfl, getKey_setKey_self _ _ _⟩
  · set r1 := process_directory ctx blobs0 meta0 files with hr1
    have hst1 : r1.state = runFiles ctx (initState blobs0 meta0) files := rfl
    have hgood : ∀ f ∈ files,
        cacheHit ctx r1.state.blobs r1.persistedMetadata f = true := by
      intro f hf
      cases hp : r1.state.filesProcessed with
      | true =>
        have hpm : r1.persistedMetadata = r1.state.metadata := by
          show (if (runFiles ctx (initState blobs0 meta0) files).filesProcessed
            then (runFiles ctx (initState blobs0 meta0) files).metadata
            else meta0) = _
          rw [hst1] at hp
          rw [if_pos hp]
          rfl
        rw [hpm, hst1]
        exact runFiles_goodEntry_all ctx files (initState blobs0 meta0) hnd f hf
      | false =>
        have hun := runFiles_not_processed ctx files (initState blobs0 meta0)
          (by rw [← hst1]; exact hp)
        have hpm : r1.persistedMetadata = r1.state.metadata := by
          show (if (runFiles ctx (initState blobs0 meta0) files).filesProcessed
            then (runFiles ctx (initState blobs0 meta0) files).metadata
            else meta0) = _
          rw [hst1] at hp
          rw [if_neg (by rw [hp]; exact Bool.false_ne_true), hst1, hun.2.1]
          rfl
        rw [hpm, hst1]
        exact runFiles_goodEntry_all ctx files (initState blobs0 meta0) hnd f hf
    have hinit2 : (initState r1.state.blobs r1.persistedMetadata).blobs
        = r1.state.blobs := rfl
    have hall := runFiles_all_hits ctx files
      (initState r1.state.blobs r1.persistedMetadata) (by
        intro f hf
        exact hgood f hf)
    have hst2 : (process_directory ctx r1.state.blobs r1.persistedMetadata files).state
        = runFiles ctx (initState r1.state.blobs r1.persistedMetadata) files := rfl
    refine ⟨?_, ?_, ?_⟩
    · rw [hst2, hall.2.2.2.2.1]
      rfl
    · rw [hst2, hall.2.2.2.1]
      rfl
    · rw [hst2, hall.2.2.1]
      simp [initState]

/-- Supporting lemma for the C5 evaluation: the isolation the code does
provide.  When exactly one file's text-mode DECODE fails (every binary
read succeeding, fresh run from an empty cache), the run completes:
`process_directory` returns the chunk records of every other file,
exactly one file-level error is logged, and every file is visited.  The
unreadable case is different — see `c5_unreadable_aborts_walk`. -/
theorem decode_failure_isolated (ctx : ChunkCtx) (pre post : List SrcFile)
    (bad : SrcFile)
    (hnd : ((pre ++ bad :: post).map (fun g => cacheKeyOf ctx g.relPath)).Nodup)
    (hbad : bad.readResult = none)
    (hothers : ∀ f ∈ pre ++ post, f.readResult.isSome = true) :
    (process_directory ctx [] [] (pre ++ bad :: post)).state.fileErrors = 1 ∧
    (process_directory ctx [] [] (pre ++ bad :: post)).state.documents
      = pre.flatMap (process_file ctx) ++ post.flatMap (process_file ctx) ∧
    (process_directory ctx [] [] (pre ++ bad :: post)).state.freshCalls
      = (pre ++ bad :: post).length := by
  have hnone : ∀ f ∈ pre ++ bad :: post,
      getKey (initState [] []).metadata (cacheKeyOf ctx f.relPath) = none := by
    intro f _
    rfl
  have hall := runFiles_all_fresh ctx (pre ++ bad :: post) (initState [] []) hnone hnd
  have hst : (process_directory ctx [] [] (pre ++ bad :: post)).state
      = runFiles ctx (initState [] []) (pre ++ bad :: post) := rfl
  refine ⟨?_, ?_, ?_⟩
  · rw [hst, hall.2.2.2.1]
    have hcp : (pre ++ bad :: post).countP (fun f => f.readResult.isNone) = 1 := by
      rw [List.countP_append, List.countP_cons]
      have h1 : pre.countP (fun f => f.readResult.isNone) = 0 := by
        rw [List.countP_eq_zero]
        intro f hf
        simp [Option.isNone_iff_eq_none, Option.isSome_iff_ne_none.mp
          (hothers f (by simp [hf]))]
      have h2 : post.countP (fun f => f.readResult.isNone) = 0 := by
        rw [List.countP_eq_zero]
        intro f hf
        simp [Option.isNone_iff_eq_none, Option.isSome_iff_ne_none.mp
          (hothers f (by simp [hf]))]
      simp [h1, h2, hbad]
    rw [hcp]
    rfl
  · rw [hst, hall.1]
    have hbadnil : process_file ctx bad = [] := by
      unfold process_file
      rw [hbad]
    rw [List.flatMap_append, List.flatMap_cons, hbadnil]
    rfl
  · rw [hst, hall.2.2.1]
    simp [initState]

/-- Bridge: on a tree whose binary reads all succeed, the fallible walk
agrees with the total one on the files' `SrcFile` restrictions — the
total model used by the cache claims is exactly the
every-binary-read-succeeds restriction of the source's loop. -/
theorem runFilesE_of_readable (ctx : ChunkCtx) (fs : List RawFile) (st : RunState)
    (h : ∀ f ∈ fs, f.rawBytes.isSome = true) :
    runFilesE ctx st fs = Except.ok (runFiles ctx st (fs.map RawFile.toSrc)) := by
  induction fs generalizing st with
  | nil => rfl
  | cons f rest ih =>
    obtain ⟨b, hb⟩ := Option.isSome_iff_exists.mp (h f (by simp))
    show (match stepFileE ctx st f with
      | Except.error e => Except.error e
      | Except.ok st' => runFilesE ctx st' rest) = _
    rw [show stepFileE ctx st f = Except.ok (stepFile ctx st f.toSrc) by
      simp [stepFileE, hb, RawFile.toSrc]]
    exact ih (stepFile ctx st f.toSrc) (fun g hg => h g (by simp [hg]))

/-- Claim C5: the claim says a single unreadable OR undecodable file is
caught, logged as one file-level error, and the walk continues.  The
code only isolates the undecodable case: `get_file_hash` runs at
chunker.py:114, outside the `try` of lines 129–140, so on an unreadable
allow-listed file it raises, nothing catches the exception, and the
whole walk aborts with no documents returned and no file-level error
logged — while the same tree with a merely undecodable file completes
with the other files' chunks and exactly one logged error.  This
evaluates the code at that failing input. -/
theorem c5_unreadable_aborts_walk :
    process_directoryE ctxW [] [] [rawA, rawCrash, rawB]
      = Except.error ("get_file_hash raised for " ++ "crash.py") ∧
    (∃ r, process_directoryE ctxW [] [] [rawA, rawUndecodable, rawB] = Except.ok r ∧
      r.state.fileErrors = 1 ∧
      r.state.documents
        = process_file ctxW rawA.toSrc ++ process_file ctxW rawB.toSrc ∧
      r.state.freshCalls = 3) :=
  ⟨rfl, ⟨_, rfl, by decide, by decide, by decide⟩⟩

/-- Claim C7: `process_directory` writes the metadata index file exactly
once, at the end of the run, if and only if at least one file was freshly
processed; when every file is served from cache nothing is written and
the persisted metadata is unchanged. -/
theorem c7_metadata_write_iff_fresh (ctx : ChunkCtx)
    (blobs0 : List (String × List Document)) (meta0 : List (String × String))
    (files : List SrcFile) :
    (process_directory ctx blobs0 meta0 files).metadataWrites ≤ 1 ∧
    ((process_directory ctx blobs0 meta0 files).metadataWrites = 1 ↔
      0 < (process_directory ctx blobs0 meta0 files).state.freshCalls) ∧
    ((process_directory ctx blobs0 meta0 files).state.freshCalls = 0 →
      (process_directory ctx blobs0 meta0 files).metadataWrites = 0 ∧
      (process_directory ctx blobs0 meta0 files).persistedMetadata = meta0) := by
  have hst : (process_directory ctx blobs0 meta0 files).state
      = runFiles ctx (initState blobs0 meta0) files := rfl
  have hiff := filesProcessed_iff_fresh ctx files (initState blobs0 meta0) rfl
  have hw : (process_directory ctx blobs0 meta0 files).metadataWrites
      = if (runFiles ctx (initState blobs0 meta0) files).filesProcessed then 1 else 0 :=
    rfl
  have hpm : (process_directory ctx blobs0 meta0 files).persistedMetadata
      = if (runFiles ctx (initState blobs0 meta0) files).filesProcessed
          then (runFiles ctx (initState blobs0 meta0) files).metadata else meta0 := rfl
  refine ⟨?_, ?_, ?_⟩
  · rw [hw]
    cases (runFiles ctx (initState blobs0 meta0) files).filesProcessed <;> simp
  · constructor
    · intro h1
      have hp : (runFiles ctx (initState blobs0 meta0) files).filesProcessed = true := by
        by_contra hcon
        rw [Bool.not_eq_true] at hcon
        rw [hw, hcon] at h1
        simp at h1
      have := hiff.mp hp
      rw [hst]
      exact this
    · intro h2
      rw [hst] at h2
      have hp : (runFiles ctx (initState blobs0 meta0) files).filesProcessed = true :=
        hiff.mpr h2
      rw [hw, hp]
      rfl
  · intro h
    rw [hst] at h
    have hp : (runFiles ctx (initState blobs0 meta0) files).filesProcessed = false := by
      cases hp' : (runFiles ctx (initState blobs0 meta0) files).filesProcessed with
      | false => rfl
      | true =>
        exfalso
        have := hiff.mp hp'
        rw [h] at this
        exact Nat.not_lt_zero _ this
    constructor
    · rw [hw, hp]
      rfl
    · rw [hpm, hp]
      rfl

/-- Claim C9: the on-disk location of a file's cached chunk blob is
derived solely by hashing the cache key (source identity plus relative
path), never the file's content: two files at the same relative path with
different bytes and read results share the same cache blob path. -/
theorem c9_cache_path_ignores_content (ctx : ChunkCtx) (f g : SrcFile)
    (hpath : f.relPath = g.relPath) :
    cachePathOf ctx f.relPath = cachePathOf ctx g.relPath ∧
    cachePathOf ctx f.relPath
      = ctx.chunksDir ++ "/" ++ ctx.md5 (cacheKeyOf ctx f.relPath) ++ ".json" :=
  ⟨by rw [hpath], rfl⟩

/-- Claim C10: when `process_file` fails internally (unreadable content),
it returns `[]` instead of raising; `process_directory` then writes a
cache blob holding the empty list, records the file's current hash in the
metadata index, and persists the index; every later run over the
unchanged file serves the empty chunk list from cache without
re-attempting the split. -/
theorem c10_failure_cached_as_empty (ctx : ChunkCtx) (bad : SrcFile)
    (hbad : bad.readResult = none) :
    process_file ctx bad = [] ∧
    getKey (process_directory ctx [] [] [bad]).state.blobs
      (cachePathOf ctx bad.relPath) = some [] ∧
    getKey (process_directory ctx [] [] [bad]).persistedMetadata
      (cacheKeyOf ctx bad.relPath) = some (ctx.md5 bad.bytes) ∧
    (process_directory ctx [] [] [bad]).state.fileErrors = 1 ∧
    (process_directory ctx
        (process_directory ctx [] [] [bad]).state.blobs
        (process_directory ctx [] [] [bad]).persistedMetadata
        [bad]).state.cacheHits = 1 ∧
    (process_directory ctx
        (process_directory ctx [] [] [bad]).state.blobs
        (process_directory ctx [] [] [bad]).persistedMetadata
        [bad]).state.freshCalls = 0 ∧
    (process_directory ctx
        (process_directory ctx [] [] [bad]).state.blobs
        (process_directory ctx [] [] [bad]).persistedMetadata
        [bad]).state.documents = [] := by
  have hpf : process_file ctx bad = [] := by
    unfold process_file
    rw [hbad]
  have hmiss : cacheHit ctx (initState [] []).blobs (initState [] []).metadata bad
      = false :=
    cacheHit_false_of_metadata_none ctx _ _ bad rfl
  have hstep := stepFile_of_miss ctx (initState [] []) bad hmiss
  have hst1 : (process_directory ctx [] [] [bad]).state
      = stepFile ctx (initState [] []) bad := rfl
  have hblobs : (process_directory ctx [] [] [bad]).state.blobs
      = setKey [] (cachePathOf ctx bad.relPath) (process_file ctx bad) := by
    rw [hst1, hstep]
    rfl
  have hmeta : (process_directory ctx [] [] [bad]).state.metadata
      = setKey [] (cacheKeyOf ctx bad.relPath) (ctx.md5 bad.bytes) := by
    rw [hst1, hstep]
    rfl
  have hproc : (process_directory ctx [] [] [bad]).state.filesProcessed = true := by
    rw [hst1, hstep]
  have hpm : (process_directory ctx [] [] [bad]).persistedMetadata
      = (process_directory ctx [] [] [bad]).state.metadata := by
    show (if (process_directory ctx [] [] [bad]).state.filesProcessed
      then (process_directory ctx [] [] [bad]).state.metadata else []) = _
    rw [if_pos hproc]
  have hgb : getKey (process_directory ctx [] [] [bad]).state.blobs
      (cachePathOf ctx bad.relPath) = some [] := by
    rw [hblobs, hpf]
    exact getKey_setKey_self _ _ _
  have hgm : getKey (process_directory ctx [] [] [bad]).persistedMetadata
      (cacheKeyOf ctx bad.relPath) = some (ctx.md5 bad.bytes) := by
    rw [hpm, hmeta]
    exact getKey_setKey_self _ _ _
  have hhit2 : cacheHit ctx (process_directory ctx [] [] [bad]).state.blobs
      (process_directory ctx [] [] [bad]).persistedMetadata bad = true := by
    rw [cacheHit_iff]
    exact ⟨by rw [hgb]; rfl, hgm⟩
  have hinit2 : initState (process_directory ctx [] [] [bad]).state.blobs
      (process_directory ctx [] [] [bad]).persistedMetadata
      = { blobs := (process_directory ctx [] [] [bad]).state.blobs
          metadata := (process_directory ctx [] [] [bad]).persistedMetadata
          documents := [], filesProcessed := false, cacheHits := 0,
          freshCalls := 0, splitCalls := 0, fileErrors := 0 } := rfl
  have hhit2' : cacheHit ctx
      (initState (process_directory ctx [] [] [bad]).state.blobs
        (process_directory ctx [] [] [bad]).persistedMetadata).blobs
      (initState (process_directory ctx [] [] [bad]).state.blobs
        (process_directory ctx [] [] [bad]).persistedMetadata).metadata bad = true :=
    hhit2
  have hstep2 := stepFile_of_hit ctx
    (initState (process_directory ctx [] [] [bad]).state.blobs
      (process_directory ctx [] [] [bad]).persistedMetadata) bad hhit2'
  have hst2 : (process_directory ctx
      (process_directory ctx [] [] [bad]).state.blobs
      (process_directory ctx [] [] [bad]).persistedMetadata [bad]).state
      = stepFile ctx (initState (process_directory ctx [] [] [bad]).state.blobs
          (process_directory ctx [] [] [bad]).persistedMetadata) bad := rfl
  refine ⟨hpf, hgb, hgm, ?_, ?_, ?_, ?_⟩
  · rw [hst1, hstep, hbad]
    rfl
  · rw [hst2, hstep2]
    rfl
  · rw [hst2, hstep2]
    rfl
  · rw [hst2, hstep2]
    show [] ++ (getKey (process_directory ctx [] [] [bad]).state.blobs
      (cachePathOf ctx bad.relPath)).getD [] = []
    rw [hgb]
    rfl


/-! ## Witnesses over the concrete instances -/

theorem c9_cache_path_ignores_content_witness :
    (fileA.relPath =
      ({ relPath := "a.py", bytes := "changed", readResult := some "changed" } :
        SrcFile).relPath) ∧
    (cachePathOf ctxW fileA.relPath
        = cachePathOf ctxW
            (({ relPath := "a.py", bytes := "changed", readResult := some "changed" } :
              SrcFile)).relPath ∧
     cachePathOf ctxW fileA.relPath
        = ctxW.chunksDir ++ "/" ++ ctxW.md5 (cacheKeyOf ctxW fileA.relPath) ++ ".json") :=
  ⟨rfl, c9_cache_path_ignores_content ctxW fileA
    { relPath := "a.py", bytes := "changed", readResult := some "changed" } rfl⟩

theorem c10_failure_cached_as_empty_witness :
    fileBad.readResult = none ∧
    (process_file ctxW fileBad = [] ∧
     getKey (process_directory ctxW [] [] [fileBad]).state.blobs
       (cachePathOf ctxW fileBad.relPath) = some [] ∧
     getKey (process_directory ctxW [] [] [fileBad]).persistedMetadata
       (cacheKeyOf ctxW fileBad.relPath) = some (ctxW.md5 fileBad.bytes) ∧
     (process_directory ctxW [] [] [fileBad]).state.fileErrors = 1 ∧
     (process_directory ctxW
         (process_directory ctxW [] [] [fileBad]).state.blobs
         (process_directory ctxW [] [] [fileBad]).persistedMetadata
         [fileBad]).state.cacheHits = 1 ∧
     (process_directory ctxW
         (process_directory ctxW [] [] [fileBad]).state.blobs
         (process_directory ctxW [] [] [fileBad]).persistedMetadata
         [fileBad]).state.freshCalls = 0 ∧
     (process_directory ctxW
         (process_directory ctxW [] [] [fileBad]).state.blobs
         (process_directory ctxW [] [] [fileBad]).persistedMetadata
         [fileBad]).state.documents = []) :=
  ⟨rfl, c10_failure_cached_as_empty ctxW fileBad rfl⟩

theorem c1_cache_hit_iff_and_second_run_witness :
    (([fileA, fileB].map (fun g => cacheKeyOf ctxW g.relPath)).Nodup) ∧
    (((stepFile ctxW (initState [] []) fileA).cacheHits
        = (initState [] []).cacheHits + 1 ↔
      ((getKey (initState [] []).blobs (cachePathOf ctxW fileA.relPath)).isSome = true ∧
       (getKey (initState [] []).metadata (cacheKeyOf ctxW fileA.relPath)).isSome = true ∧
       getKey (initState [] []).metadata (cacheKeyOf ctxW fileA.relPath)
         = some (ctxW.md5 fileA.bytes))) ∧
     (cacheHit ctxW (initState [] []).blobs (initState [] []).metadata fileA = true →
       (stepFile ctxW (initState [] []) fileA).splitCalls
         = (initState [] []).splitCalls ∧
       (stepFile ctxW (initState [] []) fileA).freshCalls
         = (initState [] []).freshCalls) ∧
     (cacheHit ctxW (initState [] []).blobs (initState [] []).metadata fileA = false →
       (stepFile ctxW (initState [] []) fileA).freshCalls
         = (initState [] []).freshCalls + 1 ∧
       getKey (stepFile ctxW (initState [] []) fileA).metadata
         (cacheKeyOf ctxW fileA.relPath) = some (ctxW.md5 fileA.bytes)) ∧
     ((process_directory ctxW (process_directory ctxW [] [] [fileA, fileB]).state.blobs
         (process_directory ctxW [] [] [fileA, fileB]).persistedMetadata
         [fileA, fileB]).state.splitCalls = 0 ∧
      (process_directory ctxW (process_directory ctxW [] [] [fileA, fileB]).state.blobs
         (process_directory ctxW [] [] [fileA, fileB]).persistedMetadata
         [fileA, fileB]).state.freshCalls = 0 ∧
      (process_directory ctxW (process_directory ctxW [] [] [fileA, fileB]).state.blobs
         (process_directory ctxW [] [] [fileA, fileB]).persistedMetadata
         [fileA, fileB]).state.cacheHits = [fileA, fileB].length)) :=
  ⟨by decide, c1_cache_hit_iff_and_second_run ctxW (initState [] []) fileA [] []
    [fileA, fileB] (by decide)⟩
